import Mathlib

set_option linter.unusedVariables false

/-!
Verification of the entity-resolution pipeline of the BreakoutAI_AI_Agent
repository: a shallow embedding of `app/services/llm_service.py`,
`app/services/search_service.py` and the orchestration in `app/main.py`
(`AIAgentUI.process_single_company` / `AIAgentUI.process_data`), together
with theorems settling the behavioural claims about those functions.

External collaborators (the Groq chat client, `json.loads`, SerpAPI, httpx
page fetches, BeautifulSoup text extraction) are modelled as oracle
parameters: the embedded repository code is deterministic in the outcomes
those collaborators produce, and every theorem quantifies over them.
-/

set_option autoImplicit false

namespace BreakoutAI

/-- A JSON value, as produced by `json.loads` on a model response.
Numbers are modelled as integers: no claim depends on numeric precision. -/
inductive JsonValue where
  | null
  | bool (b : Bool)
  | num (n : Int)
  | str (s : String)
  | arr (elems : List JsonValue)
  | obj (fields : List (String × JsonValue))

/-- First-occurrence key lookup in a JSON object's field list (Python `dict`
access; `json.loads` never produces duplicate keys, so any convention agrees
with it). -/
def lookupF : List (String × JsonValue) → String → Option JsonValue
  | [], _ => none
  | (k, v) :: rest, key => if k = key then some v else lookupF rest key

/-- Python `field in dict` membership test. -/
def hasKeyF (fs : List (String × JsonValue)) (key : String) : Bool :=
  (lookupF fs key).isSome

/-- The `ExtractedInformation` pydantic model of `llm_service.py`
(lines 10-18): all scalar fields optional strings defaulting to `None`,
the mappings defaulting to empty.  Confidence scores are numeric; their
values are modelled as integers. -/
structure ExtractedInformation where
  email : Option String := none
  location : Option String := none
  website : Option String := none
  description : Option String := none
  social_media : List (String × String) := []
  phone : Option String := none
  additional_info : List (String × JsonValue) := []
  confidence_scores : List (String × Int) := []

/-- The all-defaults record `ExtractedInformation()`. -/
def ExtractedInformation.empty : ExtractedInformation := {}

/-- Pydantic validation of an `Optional[str]` field: missing or `null`
gives `None`, a string passes, anything else raises `ValidationError`. -/
def parseOptStr : Option JsonValue → Except String (Option String)
  | none => .ok none
  | some .null => .ok none
  | some (.str s) => .ok (some s)
  | some _ => .error "string field: invalid type"

/-- Values of a `Dict[str, str]` field must all be strings. -/
def mapStrVals : List (String × JsonValue) → Except String (List (String × String))
  | [] => .ok []
  | (k, .str v) :: rest => (mapStrVals rest).map (fun r => (k, v) :: r)
  | _ => .error "mapping field: non-string value"

/-- Pydantic validation of a `Dict[str, str]` field: missing gives the
empty default, an all-string object passes, anything else (including an
explicit `null`) raises `ValidationError`. -/
def parseStrMap : Option JsonValue → Except String (List (String × String))
  | none => .ok []
  | some (.obj fs) => mapStrVals fs
  | some _ => .error "mapping field: invalid type"

/-- Pydantic validation of a `Dict[str, Any]` field: missing gives the
empty default, any object passes, anything else raises. -/
def parseAnyMap : Option JsonValue → Except String (List (String × JsonValue))
  | none => .ok []
  | some (.obj fs) => .ok fs
  | some _ => .error "mapping field: invalid type"

/-- Values of a `Dict[str, float]` field must all be numeric. -/
def mapNumVals : List (String × JsonValue) → Except String (List (String × Int))
  | [] => .ok []
  | (k, .num v) :: rest => (mapNumVals rest).map (fun r => (k, v) :: r)
  | _ => .error "score field: non-numeric value"

/-- Pydantic validation of the `Dict[str, float]` confidence-score field. -/
def parseNumMap : Option JsonValue → Except String (List (String × Int))
  | none => .ok []
  | some (.obj fs) => mapNumVals fs
  | some _ => .error "score field: invalid type"

/-- The `ExtractedInformation(**parsed)` pydantic constructor call: a
non-object argument raises `TypeError`; an object is validated field by
field (unknown keys are ignored, pydantic's default). Any raised
exception is represented as `Except.error`. -/
def ExtractedInformation.ofJson : JsonValue → Except String ExtractedInformation
  | .obj fs => do
      let email ← parseOptStr (lookupF fs "email")
      let location ← parseOptStr (lookupF fs "location")
      let website ← parseOptStr (lookupF fs "website")
      let description ← parseOptStr (lookupF fs "description")
      let social_media ← parseStrMap (lookupF fs "social_media")
      let phone ← parseOptStr (lookupF fs "phone")
      let additional_info ← parseAnyMap (lookupF fs "additional_info")
      let confidence_scores ← parseNumMap (lookupF fs "confidence_scores")
      .ok { email, location, website, description, social_media, phone,
            additional_info, confidence_scores }
  | _ => .error "constructor argument is not a mapping"

/-- Serialization of an `Optional[str]` field performed by `model_dump`. -/
def optStrJson : Option String → JsonValue
  | none => .null
  | some s => .str s

/-- Serialization of a `Dict[str, str]` field. -/
def strMapJson (l : List (String × String)) : JsonValue :=
  .obj (l.map (fun p => (p.1, .str p.2)))

/-- Serialization of the confidence-score mapping. -/
def numMapJson (l : List (String × Int)) : JsonValue :=
  .obj (l.map (fun p => (p.1, .num p.2)))

/-- `info.model_dump()`: the draft profile as a Python dict, used both in
the verification prompt and as the source of back-fill values. -/
def model_dump (info : ExtractedInformation) : List (String × JsonValue) :=
  [("email", optStrJson info.email),
   ("location", optStrJson info.location),
   ("website", optStrJson info.website),
   ("description", optStrJson info.description),
   ("social_media", strMapJson info.social_media),
   ("phone", optStrJson info.phone),
   ("additional_info", .obj info.additional_info),
   ("confidence_scores", numMapJson info.confidence_scores)]

/-- The `required_fields` list of `verify_information`
(`llm_service.py` lines 181-182), in source order. -/
def required_fields : List String :=
  ["email", "location", "website", "description", "social_media", "phone",
   "additional_info"]

/-- The back-fill loop of `verify_information` (lines 183-185):
`for field in required_fields: if field not in verification:
verification[field] = info_dict.get(field)`.  Insertion into a Python dict
of a fresh key appends it in iteration order. -/
def backfillGo (dump : List (String × JsonValue)) :
    List String → List (String × JsonValue) → List (String × JsonValue)
  | [], acc => acc
  | f :: rest, acc =>
      backfillGo dump rest
        (if hasKeyF acc f then acc else acc ++ [(f, (lookupF dump f).getD .null)])

/-- Lines 188-189: `if 'confidence_scores' not in verification:
verification['confidence_scores'] = {}`. -/
def ensure_confidence (fs : List (String × JsonValue)) : List (String × JsonValue) :=
  if hasKeyF fs "confidence_scores" then fs
  else fs ++ [("confidence_scores", .obj [])]

/-- Python slice `s[a:-b]` on a string (used to strip code fences). -/
def sliceDropEnds (s : String) (a b : Nat) : String :=
  let cs := s.toList.drop a
  String.mk (cs.take (cs.length - b))

/-- The whitespace class stripped by Python's `str.strip()`. -/
def pyWhitespace (c : Char) : Bool :=
  c = ' ' || c = '\t' || c = '\n' || c = '\r' || c = '\x0b' || c = '\x0c'

/-- Python `s.strip()`: drop leading and trailing whitespace. -/
def pyStrip (s : String) : String :=
  String.mk (((s.toList.dropWhile pyWhitespace).reverse.dropWhile pyWhitespace).reverse)

/-- Python `s.startswith(p)` on character lists. -/
def isPrefixChars : List Char → List Char → Bool
  | [], _ => true
  | _ :: _, [] => false
  | p :: ps, c :: cs => p = c && isPrefixChars ps cs

/-- Python `s.startswith(p)`. -/
def pyStartsWith (s p : String) : Bool :=
  isPrefixChars p.toList s.toList

/-- The response-cleaning sequence shared by `extract_information` and
`verify_information`: `content.strip()`, removal of a leading
code fence (` ```json ` or ` ``` `, dropping the matching trailing three
characters), and a final `strip()`. -/
def clean_response (raw : String) : String :=
  let t := pyStrip raw
  let t2 :=
    if pyStartsWith t "```json" then sliceDropEnds t 7 3
    else if pyStartsWith t "```" then sliceDropEnds t 3 3
    else t
  pyStrip t2

/-- Outcome of a call to `LLMService._rate_limited_request` as seen by its
callers: a completion text, the implicit `None` returned when the retry
loop exhausts, or a propagated exception. -/
inductive RLOutcome where
  | ok (completion : String)
  | noResponse
  | raised (msg : String)

/-- The `SearchResult` pydantic model of `search_service.py` (lines 11-16):
one ranked hit, `content` populated only by page-fetch enhancement. -/
structure SearchResult where
  title : String
  link : String
  snippet : String
  displayed_link : String
  content : Option String := none
deriving DecidableEq, Repr

/-- `LLMService.extract_information` (lines 101-132).  The prompt built
from the search results only influences the model's answer, which is
supplied by the `invoke` oracle; `jsonLoads` is the `json.loads` oracle.
Every failure mode (invocation exception, `None` completion — whose
attribute access raises and is caught by the outer handler —, JSON decode
failure, pydantic validation failure) degrades to the empty profile. -/
def extract_information (invoke : RLOutcome)
    (jsonLoads : String → Option JsonValue)
    (search_results : List SearchResult) (entity : String) : ExtractedInformation :=
  match invoke with
  | .raised _ => .empty
  | .noResponse => .empty
  | .ok raw =>
      match jsonLoads (clean_response raw) with
      | none => .empty
      | some j =>
          match ExtractedInformation.ofJson j with
          | .ok info => info
          | .error _ => .empty

/-- The parse-and-repair stage of `verify_information` (lines 178-191),
reached when the model invocation produced a completion: decode the
cleaned response, back-fill required fields missing from it out of the
draft's `model_dump`, default `confidence_scores`, and re-validate through
the pydantic constructor.  `none` covers every path on which the Python
code falls into an exception handler that returns the draft (JSON decode
failure, a non-dict response, pydantic validation failure). -/
def verify_parse (jsonLoads : String → Option JsonValue) (raw : String)
    (info : ExtractedInformation) : Option ExtractedInformation :=
  match jsonLoads (clean_response raw) with
  | some (.obj fs) =>
      let bf := backfillGo (model_dump info) required_fields fs
      match ExtractedInformation.ofJson (.obj (ensure_confidence bf)) with
      | .ok v => some v
      | .error _ => none
  | _ => none

/-- `LLMService.verify_information` (lines 134-199): on a successful
parse-and-repair the re-validated profile is returned; on any failure
(invocation exception, `None` completion, parse or validation failure)
the original draft is returned untouched. -/
def verify_information (invoke : RLOutcome)
    (jsonLoads : String → Option JsonValue)
    (info : ExtractedInformation) : ExtractedInformation :=
  match invoke with
  | .raised _ => info
  | .noResponse => info
  | .ok raw => (verify_parse jsonLoads raw info).getD info

/-- `LLMService._truncate_text` (lines 32-41): cut to `max_length`
characters, then trim back to the last sentence boundary when one occurs
after the first character, else append an ellipsis. -/
def rfindIdx : List Char → Char → Option Nat
  | [], _ => none
  | x :: xs, c =>
      match rfindIdx xs c with
      | some i => some (i + 1)
      | none => if x = c then some 0 else none

/-- Python slice `s[:n]` on a string. -/
def takeChars (s : String) (n : Nat) : String :=
  String.mk (s.toList.take n)

/-- The body of `_truncate_text`; the empty string falls under the
`len(text) <= max_length` test exactly as under Python's `not text`. -/
def truncate_text (text : String) (max_length : Nat := 200) : String :=
  if text.length ≤ max_length then text
  else
    let truncated := takeChars text max_length
    match rfindIdx truncated.toList '.' with
    | some i => if 0 < i then takeChars truncated (i + 1) else truncated ++ "..."
    | none => truncated ++ "..."

/-! ### Basic facts about field lookup and the back-fill loop -/

theorem lookupF_eq_none (fs : List (String × JsonValue)) (k : String)
    (h : hasKeyF fs k = false) : lookupF fs k = none := by
  unfold hasKeyF at h
  cases hl : lookupF fs k with
  | none => rfl
  | some v => rw [hl] at h; simp at h

theorem lookupF_append_left (a b : List (String × JsonValue)) (k : String)
    (h : hasKeyF a k = true) : lookupF (a ++ b) k = lookupF a k := by
  induction a with
  | nil => simp [hasKeyF, lookupF] at h
  | cons p rest ih =>
      by_cases hk : p.1 = k
      · simp [lookupF, hk]
      · simp only [hasKeyF, lookupF, hk, if_neg hk] at h ⊢
        exact ih h

theorem lookupF_append_right (a b : List (String × JsonValue)) (k : String)
    (h : hasKeyF a k = false) : lookupF (a ++ b) k = lookupF b k := by
  induction a with
  | nil => rfl
  | cons p rest ih =>
      by_cases hk : p.1 = k
      · simp [hasKeyF, lookupF, hk] at h
      · simp only [hasKeyF, lookupF, hk, if_neg hk] at h ⊢
        exact ih h

theorem hasKeyF_append (a b : List (String × JsonValue)) (k : String) :
    hasKeyF (a ++ b) k = (hasKeyF a k || hasKeyF b k) := by
  cases h : hasKeyF a k with
  | true =>
      unfold hasKeyF
      rw [lookupF_append_left a b k h, Bool.true_or]
      exact h
  | false =>
      unfold hasKeyF
      rw [lookupF_append_right a b k h, Bool.false_or]

theorem backfillGo_preserves (dump : List (String × JsonValue))
    (names : List String) :
    ∀ (acc : List (String × JsonValue)) (k : String), hasKeyF acc k = true →
      lookupF (backfillGo dump names acc) k = lookupF acc k := by
  induction names with
  | nil => intro acc k hk; rfl
  | cons f rest ih =>
      intro acc k hk
      unfold backfillGo
      by_cases hf : hasKeyF acc f
      · rw [if_pos hf]; exact ih acc k hk
      · rw [if_neg hf]
        have hk' : hasKeyF (acc ++ [(f, (lookupF dump f).getD .null)]) k = true := by
          rw [hasKeyF_append, hk, Bool.true_or]
        rw [ih _ k hk', lookupF_append_left _ _ _ hk]

theorem backfillGo_inserts (dump : List (String × JsonValue))
    (names : List String) :
    ∀ (acc : List (String × JsonValue)) (k : String), k ∈ names →
      hasKeyF acc k = false →
      lookupF (backfillGo dump names acc) k = some ((lookupF dump k).getD .null) := by
  induction names with
  | nil => intro acc k hmem; exact absurd hmem (List.not_mem_nil k)
  | cons f rest ih =>
      intro acc k hmem hk
      unfold backfillGo
      by_cases hf : hasKeyF acc f
      · rw [if_pos hf]
        have hfk : f ≠ k := by rintro rfl; rw [hf] at hk; simp at hk
        have : k ∈ rest := by
          rcases List.mem_cons.mp hmem with h | h
          · exact absurd h.symm hfk
          · exact h
        exact ih acc k this hk
      · rw [if_neg hf]
        by_cases hfk : f = k
        · subst hfk
          have hone : lookupF [(f, (lookupF dump f).getD JsonValue.null)] f =
              some ((lookupF dump f).getD .null) := by simp [lookupF]
          have hkey : hasKeyF (acc ++ [(f, (lookupF dump f).getD JsonValue.null)]) f = true := by
            rw [hasKeyF_append]
            simp [hasKeyF, hone]
          rw [backfillGo_preserves dump rest _ f hkey,
              lookupF_append_right _ _ _ hk, hone]
        · have hk' : hasKeyF (acc ++ [(f, (lookupF dump f).getD JsonValue.null)]) k = false := by
            rw [hasKeyF_append, hk]
            simp [hasKeyF, lookupF, hfk]
          have : k ∈ rest := by
            rcases List.mem_cons.mp hmem with h | h
            · exact absurd h.symm hfk
            · exact h
          exact ih _ k this hk'

theorem ensure_confidence_preserves (fs : List (String × JsonValue)) (k : String)
    (h : k ≠ "confidence_scores") :
    lookupF (ensure_confidence fs) k = lookupF fs k := by
  unfold ensure_confidence
  by_cases hc : hasKeyF fs "confidence_scores"
  · rw [if_pos hc]
  · rw [if_neg hc]
    cases hk : hasKeyF fs k with
    | true => exact lookupF_append_left _ _ _ hk
    | false =>
        rw [lookupF_append_right _ _ _ hk, lookupF_eq_none fs k hk]
        have hck : ¬("confidence_scores" = k) := fun hh => h hh.symm
        simp [lookupF, hck]

/-! ### Field projections of a successful pydantic construction -/

theorem ofJson_ok_fields (fs : List (String × JsonValue)) (v : ExtractedInformation)
    (h : ExtractedInformation.ofJson (.obj fs) = .ok v) :
    parseOptStr (lookupF fs "email") = .ok v.email ∧
    parseOptStr (lookupF fs "location") = .ok v.location ∧
    parseOptStr (lookupF fs "website") = .ok v.website ∧
    parseOptStr (lookupF fs "description") = .ok v.description ∧
    parseStrMap (lookupF fs "social_media") = .ok v.social_media ∧
    parseOptStr (lookupF fs "phone") = .ok v.phone ∧
    parseAnyMap (lookupF fs "additional_info") = .ok v.additional_info ∧
    parseNumMap (lookupF fs "confidence_scores") = .ok v.confidence_scores := by
  simp only [ExtractedInformation.ofJson, bind, Except.bind] at h
  cases h1 : parseOptStr (lookupF fs "email") with
  | error e => rw [h1] at h; simp at h
  | ok a1 =>
  rw [h1] at h
  cases h2 : parseOptStr (lookupF fs "location") with
  | error e => rw [h2] at h; simp at h
  | ok a2 =>
  rw [h2] at h
  cases h3 : parseOptStr (lookupF fs "website") with
  | error e => rw [h3] at h; simp at h
  | ok a3 =>
  rw [h3] at h
  cases h4 : parseOptStr (lookupF fs "description") with
  | error e => rw [h4] at h; simp at h
  | ok a4 =>
  rw [h4] at h
  cases h5 : parseStrMap (lookupF fs "social_media") with
  | error e => rw [h5] at h; simp at h
  | ok a5 =>
  rw [h5] at h
  cases h6 : parseOptStr (lookupF fs "phone") with
  | error e => rw [h6] at h; simp at h
  | ok a6 =>
  rw [h6] at h
  cases h7 : parseAnyMap (lookupF fs "additional_info") with
  | error e => rw [h7] at h; simp at h
  | ok a7 =>
  rw [h7] at h
  cases h8 : parseNumMap (lookupF fs "confidence_scores") with
  | error e => rw [h8] at h; simp at h
  | ok a8 =>
  rw [h8] at h
  simp only [Except.ok.injEq] at h
  subst h
  exact ⟨rfl, rfl, rfl, rfl, rfl, rfl, rfl, rfl⟩

/-! ### Round trips between `model_dump` serialization and validation -/

theorem except_map_ok {α β : Type} (f : α → β) (a : α) :
    Except.map f (Except.ok a : Except String α) = Except.ok (f a) := rfl

theorem parseOptStr_optStrJson (o : Option String) :
    parseOptStr (some (optStrJson o)) = .ok o := by
  cases o <;> rfl

theorem mapStrVals_map (l : List (String × String)) :
    mapStrVals (l.map (fun p => (p.1, .str p.2))) = .ok l := by
  induction l with
  | nil => rfl
  | cons p rest ih => simp [mapStrVals, ih, except_map_ok]

theorem parseStrMap_strMapJson (l : List (String × String)) :
    parseStrMap (some (strMapJson l)) = .ok l := by
  simp [parseStrMap, strMapJson, mapStrVals_map]

theorem mapNumVals_map (l : List (String × Int)) :
    mapNumVals (l.map (fun p => (p.1, .num p.2))) = .ok l := by
  induction l with
  | nil => rfl
  | cons p rest ih => simp [mapNumVals, ih, except_map_ok]

theorem parseNumMap_numMapJson (l : List (String × Int)) :
    parseNumMap (some (numMapJson l)) = .ok l := by
  simp [parseNumMap, numMapJson, mapNumVals_map]

/-! ### The seven required fields as a finite enumeration -/

/-- One of the seven required fields of the verification repair loop. -/
inductive ReqField where
  | email | location | website | description | social_media | phone | additional_info
deriving DecidableEq, Repr

/-- The dict key of a required field. -/
def reqName : ReqField → String
  | .email => "email"
  | .location => "location"
  | .website => "website"
  | .description => "description"
  | .social_media => "social_media"
  | .phone => "phone"
  | .additional_info => "additional_info"

/-- The `model_dump` value of a required field of a profile: two profiles
have equal dumps of a field exactly when the field agrees. -/
def dumpField (info : ExtractedInformation) : ReqField → JsonValue
  | .email => optStrJson info.email
  | .location => optStrJson info.location
  | .website => optStrJson info.website
  | .description => optStrJson info.description
  | .social_media => strMapJson info.social_media
  | .phone => optStrJson info.phone
  | .additional_info => .obj info.additional_info

/-- The pydantic validation step for a required field, returning the
re-serialized value it would store. -/
def parseFieldDump : ReqField → Option JsonValue → Except String JsonValue
  | .email, o => (parseOptStr o).map optStrJson
  | .location, o => (parseOptStr o).map optStrJson
  | .website, o => (parseOptStr o).map optStrJson
  | .description, o => (parseOptStr o).map optStrJson
  | .social_media, o => (parseStrMap o).map strMapJson
  | .phone, o => (parseOptStr o).map optStrJson
  | .additional_info, o => (parseAnyMap o).map JsonValue.obj

theorem ofJson_dumpField (fs : List (String × JsonValue))
    (v : ExtractedInformation)
    (h : ExtractedInformation.ofJson (.obj fs) = .ok v) (f : ReqField) :
    parseFieldDump f (lookupF fs (reqName f)) = .ok (dumpField v f) := by
  obtain ⟨h1, h2, h3, h4, h5, h6, h7, h8⟩ := ofJson_ok_fields fs v h
  cases f <;>
    simp [parseFieldDump, dumpField, reqName, h1, h2, h3, h4, h5, h6, h7,
      except_map_ok]

theorem parseFieldDump_roundtrip (info : ExtractedInformation) (f : ReqField) :
    parseFieldDump f (some (dumpField info f)) = .ok (dumpField info f) := by
  cases f <;>
    simp [parseFieldDump, dumpField, parseOptStr_optStrJson,
      parseStrMap_strMapJson, parseAnyMap, except_map_ok]

theorem lookupF_model_dump (info : ExtractedInformation) (f : ReqField) :
    lookupF (model_dump info) (reqName f) = some (dumpField info f) := by
  cases f <;> rfl

theorem reqName_mem_required (f : ReqField) : reqName f ∈ required_fields := by
  cases f <;> simp [reqName, required_fields]

theorem reqName_ne_confidence (f : ReqField) : reqName f ≠ "confidence_scores" := by
  cases f <;> simp [reqName]

/-- A scalar (Optional[str]) field of the profile. -/
inductive ScalarField where
  | email | location | website | description | phone
deriving DecidableEq, Repr

/-- Embedding of the scalar fields into the required fields. -/
def ScalarField.toReq : ScalarField → ReqField
  | .email => .email
  | .location => .location
  | .website => .website
  | .description => .description
  | .phone => .phone

/-- Projection of a scalar field out of a profile. -/
def scalarVal (info : ExtractedInformation) : ScalarField → Option String
  | .email => info.email
  | .location => info.location
  | .website => info.website
  | .description => info.description
  | .phone => info.phone

theorem dumpField_toReq (info : ExtractedInformation) (f : ScalarField) :
    dumpField info f.toReq = optStrJson (scalarVal info f) := by
  cases f <;> rfl

theorem optStrJson_eq_null (o : Option String) (h : optStrJson o = .null) :
    o = none := by
  cases o with
  | none => rfl
  | some s => simp [optStrJson] at h

theorem parseFieldDump_null (f : ScalarField) :
    parseFieldDump f.toReq (some .null) = .ok .null := by
  cases f <;> rfl

/-! ## Claim C2: verification back-fills required fields missing from the
parsed verification response with the draft's values -/

/-- Claim C2.  For every draft and every verification response that parses
as a JSON object, each required field whose key is entirely absent from the
response ends up in the returned profile with exactly the draft's value:
either the back-filled value survives re-validation unchanged, or the
validation of another field fails and the whole draft is returned.  (This
is stated for all drafts, which subsumes the claim's restriction to fields
the draft had set.) -/
theorem verify_information_backfills_missing_fields :
    ∀ (jsonLoads : String → Option JsonValue) (info : ExtractedInformation)
      (raw : String) (fs : List (String × JsonValue)) (f : ReqField),
      jsonLoads (clean_response raw) = some (.obj fs) →
      hasKeyF fs (reqName f) = false →
      dumpField (verify_information (.ok raw) jsonLoads info) f
        = dumpField info f := by
  intro jsonLoads info raw fs f hparse hmiss
  have hv : verify_information (.ok raw) jsonLoads info
      = (verify_parse jsonLoads raw info).getD info := rfl
  rw [hv]
  simp only [verify_parse, hparse]
  cases hof : ExtractedInformation.ofJson
      (.obj (ensure_confidence (backfillGo (model_dump info) required_fields fs))) with
  | error e => simp
  | ok v =>
      simp only [Option.getD_some]
      have hlook : lookupF
          (ensure_confidence (backfillGo (model_dump info) required_fields fs))
          (reqName f) = some (dumpField info f) := by
        rw [ensure_confidence_preserves _ _ (reqName_ne_confidence f),
            backfillGo_inserts (model_dump info) required_fields fs (reqName f)
              (reqName_mem_required f) hmiss,
            lookupF_model_dump]
        rfl
      have h1 := ofJson_dumpField _ v hof f
      rw [hlook, parseFieldDump_roundtrip] at h1
      injection h1 with h1
      exact h1.symm

/-- Witness for C2 at a concrete parse-successful, key-absent input. -/
def loadsC2 : String → Option JsonValue :=
  fun s => if s = "VRESP" then some (.obj []) else none

/-- A concrete draft with `email` set. -/
def draftC2 : ExtractedInformation := { email := some "w@x.y" }

theorem verify_information_backfills_missing_fields_witness :
    loadsC2 (clean_response "VRESP") = some (.obj []) ∧
    hasKeyF [] (reqName .email) = false ∧
    dumpField (verify_information (.ok "VRESP") loadsC2 draftC2) ReqField.email
      = dumpField draftC2 ReqField.email :=
  ⟨rfl, rfl,
    verify_information_backfills_missing_fields loadsC2 draftC2 "VRESP" []
      ReqField.email rfl rfl⟩

/-! ## Claim C3: extraction never raises and degrades every failure to the
empty profile -/

/-- The failure condition of `extract_information`: a propagated
invocation exception, a `None` completion after exhausted retries, a JSON
decode failure on the cleaned response, or a pydantic validation failure. -/
def extraction_failed (invoke : RLOutcome)
    (jsonLoads : String → Option JsonValue) : Bool :=
  match invoke with
  | .raised _ => true
  | .noResponse => true
  | .ok raw =>
      match jsonLoads (clean_response raw) with
      | none => true
      | some j =>
          match ExtractedInformation.ofJson j with
          | .ok _ => false
          | .error _ => true

/-- Claim C3.  `extract_information` is a total function of the modelled
inputs (it never raises), and on every failure mode it returns the empty
profile: all scalar fields absent, all mappings empty. -/
theorem extract_information_failure_empty :
    ∀ (invoke : RLOutcome) (jsonLoads : String → Option JsonValue)
      (results : List SearchResult) (entity : String),
      extraction_failed invoke jsonLoads = true →
      extract_information invoke jsonLoads results entity = .empty ∧
      (extract_information invoke jsonLoads results entity).email = none ∧
      (extract_information invoke jsonLoads results entity).location = none ∧
      (extract_information invoke jsonLoads results entity).website = none ∧
      (extract_information invoke jsonLoads results entity).description = none ∧
      (extract_information invoke jsonLoads results entity).phone = none ∧
      (extract_information invoke jsonLoads results entity).social_media = [] ∧
      (extract_information invoke jsonLoads results entity).additional_info = [] ∧
      (extract_information invoke jsonLoads results entity).confidence_scores = [] := by
  intro invoke jsonLoads results entity hfail
  have hempty : extract_information invoke jsonLoads results entity = .empty := by
    cases invoke with
    | raised m => rfl
    | noResponse => rfl
    | ok raw =>
        simp only [extraction_failed] at hfail
        simp only [extract_information]
        cases hl : jsonLoads (clean_response raw) with
        | none => rfl
        | some j =>
            rw [hl] at hfail
            have hfail2 : (match ExtractedInformation.ofJson j with
                | Except.ok _ => false
                | Except.error _ => true) = true := hfail
            show (match ExtractedInformation.ofJson j with
                | Except.ok info => info
                | Except.error _ => ExtractedInformation.empty)
              = ExtractedInformation.empty
            cases hj : ExtractedInformation.ofJson j with
            | ok w => rw [hj] at hfail2; simp at hfail2
            | error e => rfl
  rw [hempty]
  exact ⟨rfl, rfl, rfl, rfl, rfl, rfl, rfl, rfl, rfl⟩

theorem extract_information_failure_empty_witness :
    extraction_failed (.raised "rate limit") (fun _ => none) = true ∧
    extract_information (.raised "rate limit") (fun _ => none) [] "Acme"
      = ExtractedInformation.empty :=
  ⟨rfl,
    (extract_information_failure_empty (.raised "rate limit") (fun _ => none)
      [] "Acme" rfl).1⟩

/-! ## Claim C4: verification never raises and returns the draft untouched
on invocation or parse failure -/

/-- Claim C4.  `verify_information` is total, and on a model-invocation
failure (propagated exception or `None` completion) or a JSON-parse
failure of the verification response it returns the draft unchanged. -/
theorem verify_information_failure_returns_draft :
    ∀ (jsonLoads : String → Option JsonValue) (info : ExtractedInformation)
      (m raw : String),
      verify_information (.raised m) jsonLoads info = info ∧
      verify_information .noResponse jsonLoads info = info ∧
      (jsonLoads (clean_response raw) = none →
        verify_information (.ok raw) jsonLoads info = info) := by
  intro jsonLoads info m raw
  refine ⟨rfl, rfl, fun h => ?_⟩
  show (verify_parse jsonLoads raw info).getD info = info
  unfold verify_parse
  rw [h]
  rfl

/-- A concrete draft with `phone` set. -/
def draftC4 : ExtractedInformation := { phone := some "555-0100" }

theorem verify_information_failure_returns_draft_witness :
    (fun _ => (none : Option JsonValue)) (clean_response "oops") = none ∧
    verify_information (.ok "oops") (fun _ => none) draftC4 = draftC4 :=
  ⟨rfl,
    (verify_information_failure_returns_draft (fun _ => none) draftC4
      "m" "oops").2.2 rfl⟩

/-! ## Claim C10: a required field present with an explicit null is not
back-filled from the draft -/

/-- Counterexample input for C10 as stated: the verification response
parses as JSON and carries the required field `social_media` with an
explicit null. -/
def loadsC10 : String → Option JsonValue :=
  fun s => if s = "RESP" then some (.obj [("social_media", JsonValue.null)]) else none

/-- A concrete draft with a non-empty `social_media` mapping. -/
def draftC10 : ExtractedInformation :=
  { email := some "a@b.c", social_media := [("twitter", "x.com/t")] }

/-- Counterexample to C10 as stated: with `social_media: null` in the
parsed response, pydantic validation of the repaired dict fails
(`Dict[str, str]` rejects `None`), the outer handler returns the draft,
and the returned profile's `social_media` is the draft's non-empty
mapping — not absent. -/
theorem verify_information_null_keeps_draft_cex :
    verify_information (.ok "RESP") loadsC10 draftC10 = draftC10 ∧
    (verify_information (.ok "RESP") loadsC10 draftC10).social_media
      = [("twitter", "x.com/t")] := by
  constructor <;> rfl

/-- Claim C10 as amended.  For a scalar required field present with an
explicit null in the parsed verification response, whenever the repaired
response passes validation the returned profile has that field absent,
regardless of the draft's value: back-fill applies only to keys entirely
missing, not to keys present with null.  (A null on a dict-valued field
instead fails validation and returns the whole draft, per the
counterexample.) -/
theorem verify_information_null_scalar_dropped :
    ∀ (jsonLoads : String → Option JsonValue) (info : ExtractedInformation)
      (raw : String) (fs : List (String × JsonValue))
      (v : ExtractedInformation) (f : ScalarField),
      jsonLoads (clean_response raw) = some (.obj fs) →
      lookupF fs (reqName f.toReq) = some .null →
      verify_parse jsonLoads raw info = some v →
      scalarVal (verify_information (.ok raw) jsonLoads info) f = none := by
  intro jsonLoads info raw fs v f hparse hnull hvp
  have hv : verify_information (.ok raw) jsonLoads info
      = (verify_parse jsonLoads raw info).getD info := rfl
  rw [hv, hvp, Option.getD_some]
  simp only [verify_parse, hparse] at hvp
  cases hof : ExtractedInformation.ofJson
      (.obj (ensure_confidence (backfillGo (model_dump info) required_fields fs))) with
  | error e => rw [hof] at hvp; simp at hvp
  | ok w =>
      rw [hof] at hvp
      simp only [Option.some.injEq] at hvp
      subst hvp
      have hkey : hasKeyF fs (reqName f.toReq) = true := by
        unfold hasKeyF
        rw [hnull]
        rfl
      have hlook : lookupF
          (ensure_confidence (backfillGo (model_dump info) required_fields fs))
          (reqName f.toReq) = some JsonValue.null := by
        rw [ensure_confidence_preserves _ _ (reqName_ne_confidence f.toReq),
            backfillGo_preserves (model_dump info) required_fields fs
              (reqName f.toReq) hkey,
            hnull]
      have h1 := ofJson_dumpField _ w hof f.toReq
      rw [hlook, parseFieldDump_null] at h1
      injection h1 with h1
      rw [dumpField_toReq] at h1
      exact optStrJson_eq_null _ h1.symm

/-- Witness inputs for the amended C10: `email` explicitly null, the rest
of the repaired response validating. -/
def loadsC10w : String → Option JsonValue :=
  fun s => if s = "VNULL" then some (.obj [("email", JsonValue.null)]) else none

/-- A concrete draft with `email` and `phone` set. -/
def draftC10w : ExtractedInformation := { email := some "x@y.z", phone := some "1" }

/-- The validated profile the amended-C10 witness produces. -/
def vC10w : ExtractedInformation := { phone := some "1" }

theorem verify_information_null_scalar_dropped_witness :
    loadsC10w (clean_response "VNULL") = some (.obj [("email", JsonValue.null)]) ∧
    verify_parse loadsC10w "VNULL" draftC10w = some vC10w ∧
    scalarVal (verify_information (.ok "VNULL") loadsC10w draftC10w)
      ScalarField.email = none :=
  ⟨rfl, rfl,
    verify_information_null_scalar_dropped loadsC10w draftC10w "VNULL"
      [("email", JsonValue.null)] vC10w ScalarField.email rfl rfl rfl⟩

/-! ## The rate-limited model invoker (`LLMService._rate_limited_request`,
`llm_service.py` lines 76-98) -/

/-- What the provider does on one attempt: return a completion, raise an
exception whose text contains `rate_limit_exceeded`, or raise any other
exception. -/
inductive AttemptResult where
  | success (completion : String)
  | rateLimit
  | otherError (msg : String)
deriving DecidableEq, Repr

/-- Observable events of the retry loop: the fixed 2-second
`min_request_interval` sleep before each call, the API call itself
(tagged with its 0-based attempt index), and the rate-limit backoff
sleep. -/
inductive RLEvent where
  | throttle (secs : Nat)
  | apiCall (attempt : Nat)
  | backoff (secs : Nat)
deriving DecidableEq, Repr

/-- The `for attempt in range(max_retries)` loop, structurally recursive
on the remaining iterations.  A rate-limit error sleeps
`(attempt + 1) * 5` seconds only when further attempts remain
(`attempt < max_retries - 1`), then continues; any other exception
propagates at once; when the loop exhausts, the Python function falls off
the end and implicitly returns `None` (`noResponse`). -/
def rlGo (provider : Nat → AttemptResult) : Nat → Nat → RLOutcome × List RLEvent
  | 0, _ => (.noResponse, [])
  | remaining + 1, attempt =>
      match provider attempt with
      | .success c => (.ok c, [.throttle 2, .apiCall attempt])
      | .otherError m => (.raised m, [.throttle 2, .apiCall attempt])
      | .rateLimit =>
          let backoffEvs :=
            if 0 < remaining then [RLEvent.backoff ((attempt + 1) * 5)] else []
          let rest := rlGo provider remaining (attempt + 1)
          (rest.fst, [RLEvent.throttle 2, RLEvent.apiCall attempt] ++ backoffEvs ++ rest.snd)

/-- `LLMService._rate_limited_request(messages, max_retries)`: run the
retry loop from attempt 0. -/
def rate_limited_request (provider : Nat → AttemptResult) (max_retries : Nat) :
    RLOutcome × List RLEvent :=
  rlGo provider max_retries 0

/-- Recognizer for API-call events. -/
def isApiCall : RLEvent → Bool
  | .apiCall _ => true
  | _ => false

/-- Number of provider calls recorded in a trace. -/
def callCount (evs : List RLEvent) : Nat := (evs.filter isApiCall).length

/-- The seconds of a backoff event. -/
def backoffSecs : RLEvent → Option Nat
  | .backoff s => some s
  | _ => none

/-- Whether an invocation outcome is a propagated exception. -/
def RLOutcome.isRaised : RLOutcome → Bool
  | .raised _ => true
  | _ => false

theorem rlGo_allRL (provider : Nat → AttemptResult) :
    ∀ (remaining attempt : Nat),
      (∀ j, attempt ≤ j → j < attempt + remaining → provider j = .rateLimit) →
      (rlGo provider remaining attempt).fst = .noResponse ∧
      callCount (rlGo provider remaining attempt).snd = remaining ∧
      (rlGo provider remaining attempt).snd.filterMap backoffSecs
        = (List.range' (attempt + 1) (remaining - 1)).map (fun k => k * 5) := by
  intro remaining
  induction remaining with
  | zero => intro attempt h; exact ⟨rfl, rfl, rfl⟩
  | succ r ih =>
      intro attempt h
      have hatt : provider attempt = .rateLimit := h attempt le_rfl (by omega)
      obtain ⟨ih1, ih2, ih3⟩ := ih (attempt + 1) (fun j h1 h2 => h j (by omega) (by omega))
      refine ⟨?_, ?_, ?_⟩
      · simp only [rlGo, hatt]
        exact ih1
      · simp only [rlGo, hatt]
        simp only [callCount] at ih2 ⊢
        by_cases hr : 0 < r
        · simp [hr, isApiCall, List.filter, List.filter_append, ih2]
        · simp [hr, isApiCall, List.filter, List.filter_append, ih2]
      · simp only [rlGo, hatt, List.filterMap_append]
        rcases Nat.eq_zero_or_pos r with hr | hr
        · subst hr
          simp [backoffSecs, List.filterMap]
        · rw [if_pos hr]
          obtain ⟨rr, rfl⟩ := Nat.exists_eq_add_of_lt hr
          simp only [List.filterMap, backoffSecs] at ih3 ⊢
          rw [ih3]
          have : List.range' (attempt + 1) (rr + 1) = (attempt + 1) :: List.range' (attempt + 2) rr :=
            List.range'_succ (attempt + 1) rr 1
          simp [this]

theorem rlGo_raise (provider : Nat → AttemptResult) (m : String) :
    ∀ (remaining attempt k : Nat), attempt ≤ k → k < attempt + remaining →
      (∀ j, attempt ≤ j → j < k → provider j = .rateLimit) →
      provider k = .otherError m →
      (rlGo provider remaining attempt).fst = .raised m ∧
      callCount (rlGo provider remaining attempt).snd = k - attempt + 1 := by
  intro remaining
  induction remaining with
  | zero => intro attempt k h1 h2 _ _; omega
  | succ r ih =>
      intro attempt k h1 h2 hrl hk
      by_cases he : attempt = k
      · subst he
        refine ⟨?_, ?_⟩ <;> simp [rlGo, hk, callCount, isApiCall, List.filter]
      · have hlt : attempt < k := lt_of_le_of_ne h1 he
        have hatt : provider attempt = .rateLimit := hrl attempt le_rfl hlt
        obtain ⟨ih1, ih2⟩ := ih (attempt + 1) k hlt (by omega)
          (fun j hj1 hj2 => hrl j (by omega) hj2) hk
        refine ⟨?_, ?_⟩
        · simp only [rlGo, hatt]
          exact ih1
        · simp only [rlGo, hatt]
          simp only [callCount] at ih2 ⊢
          by_cases hr : 0 < r
          · simp [hr, isApiCall, List.filter, List.filter_append, ih2]
            omega
          · simp [hr, isApiCall, List.filter, List.filter_append, ih2]
            omega

theorem rlGo_success (provider : Nat → AttemptResult) (c : String) :
    ∀ (remaining attempt k : Nat), attempt ≤ k → k < attempt + remaining →
      (∀ j, attempt ≤ j → j < k → provider j = .rateLimit) →
      provider k = .success c →
      (rlGo provider remaining attempt).fst = .ok c := by
  intro remaining
  induction remaining with
  | zero => intro attempt k h1 h2 _ _; omega
  | succ r ih =>
      intro attempt k h1 h2 hrl hk
      by_cases he : attempt = k
      · subst he
        simp [rlGo, hk]
      · have hlt : attempt < k := lt_of_le_of_ne h1 he
        have hatt : provider attempt = .rateLimit := hrl attempt le_rfl hlt
        simp only [rlGo, hatt]
        exact ih (attempt + 1) k hlt (by omega)
          (fun j hj1 hj2 => hrl j (by omega) hj2) hk

/-! ## Claim C5 (corrected): retry loop behaviour of the invoker -/

/-- Counterexample to C5 as stated: with every attempt hitting the rate
limit and the default `max_retries = 3`, the loop performs 3 calls with
backoffs of 5 then 10 seconds, and then falls off the end of the function
returning Python `None` — it does not fail with an invocation error. -/
theorem rate_limited_request_exhaustion_returns_none_cex :
    (rate_limited_request (fun _ => AttemptResult.rateLimit) 3).fst
      = RLOutcome.noResponse ∧
    RLOutcome.isRaised (rate_limited_request (fun _ => AttemptResult.rateLimit) 3).fst
      = false ∧
    callCount (rate_limited_request (fun _ => AttemptResult.rateLimit) 3).snd = 3 ∧
    (rate_limited_request (fun _ => AttemptResult.rateLimit) 3).snd
      = [.throttle 2, .apiCall 0, .backoff 5,
         .throttle 2, .apiCall 1, .backoff 10,
         .throttle 2, .apiCall 2] :=
  ⟨rfl, rfl, rfl, rfl⟩

/-- Claim C5 as amended.  The invoker retries rate-limit-class errors up
to `max_retries` attempts with a backoff of `attempt * 5` seconds
(attempts numbered from 1) between consecutive attempts, propagates any
other provider error immediately without a further attempt, returns the
completion on success — but after exhausting the retries it returns
`None` (no response and no raised error) instead of failing with an
invocation error. -/
theorem rate_limited_request_retry_behavior :
    (∀ (provider : Nat → AttemptResult) (maxR : Nat),
      (∀ j, j < maxR → provider j = AttemptResult.rateLimit) →
      (rate_limited_request provider maxR).fst = RLOutcome.noResponse ∧
      callCount (rate_limited_request provider maxR).snd = maxR ∧
      (rate_limited_request provider maxR).snd.filterMap backoffSecs
        = (List.range' 1 (maxR - 1)).map (fun k => k * 5)) ∧
    (∀ (provider : Nat → AttemptResult) (maxR k : Nat) (m : String),
      k < maxR →
      (∀ j, j < k → provider j = AttemptResult.rateLimit) →
      provider k = AttemptResult.otherError m →
      (rate_limited_request provider maxR).fst = RLOutcome.raised m ∧
      callCount (rate_limited_request provider maxR).snd = k + 1) ∧
    (∀ (provider : Nat → AttemptResult) (maxR k : Nat) (c : String),
      k < maxR →
      (∀ j, j < k → provider j = AttemptResult.rateLimit) →
      provider k = AttemptResult.success c →
      (rate_limited_request provider maxR).fst = RLOutcome.ok c) := by
  refine ⟨?_, ?_, ?_⟩
  · intro provider maxR h
    exact rlGo_allRL provider maxR 0 (fun j h1 h2 => h j (by omega))
  · intro provider maxR k m hk hrl hother
    have := rlGo_raise provider m maxR 0 k (Nat.zero_le k) (by omega)
      (fun j hj1 hj2 => hrl j hj2) hother
    simpa using this
  · intro provider maxR k c hk hrl hsucc
    exact rlGo_success provider c maxR 0 k (Nat.zero_le k) (by omega)
      (fun j hj1 hj2 => hrl j hj2) hsucc

/-- Provider for the C5 witness: one rate-limit hit, then a non-rate-limit
error on the second attempt. -/
def providerC5 : Nat → AttemptResult :=
  fun j => if j = 1 then AttemptResult.otherError "boom" else AttemptResult.rateLimit

theorem rate_limited_request_retry_behavior_witness :
    (rate_limited_request providerC5 3).fst = RLOutcome.raised "boom" ∧
    callCount (rate_limited_request providerC5 3).snd = 2 :=
  rate_limited_request_retry_behavior.2.1 providerC5 3 1 "boom" (by omega)
    (by intro j hj; have hj0 : j = 0 := by omega
        subst hj0; rfl)
    rfl

/-! ## The search service (`search_service.py`) -/

/-- Outcome of the page fetch `client.get(result.link, timeout=10.0,
follow_redirects=True)`: an HTTP response with status and body text, or a
raised exception (timeout, connection error, ...). -/
inductive FetchOutcome where
  | exn (msg : String)
  | http (status : Nat) (text : String)
deriving DecidableEq, Repr

/-- Strip leading and trailing Python whitespace from a character list. -/
def stripChars (cs : List Char) : List Char :=
  ((cs.dropWhile pyWhitespace).reverse.dropWhile pyWhitespace).reverse

/-- Split a character list on a single character (Python `splitlines`,
approximated by the newline separator). -/
def splitOnChar (c : Char) : List Char → List (List Char)
  | [] => [[]]
  | x :: xs =>
      let r := splitOnChar c xs
      if x = c then [] :: r
      else
        match r with
        | [] => [[x]]
        | h :: t => (x :: h) :: t

/-- Python `line.split("  ")`: greedy left-to-right split on a two-space
separator. -/
def splitTwoSpaces : List Char → List (List Char)
  | [] => [[]]
  | ' ' :: ' ' :: xs => [] :: splitTwoSpaces xs
  | x :: xs =>
      match splitTwoSpaces xs with
      | [] => [[x]]
      | h :: t => (x :: h) :: t

/-- Python `' '.join(...)`. -/
def joinWithSpace : List (List Char) → List Char
  | [] => []
  | [c] => c
  | c :: rest => c ++ ' ' :: joinWithSpace rest

/-- The whitespace-normalization of `fetch_content`
(`search_service.py` lines 89-91): strip each line, split lines on double
spaces, strip each chunk, and join the non-empty chunks with single
spaces. -/
def clean_page_text (text : String) : String :=
  let lines := (splitOnChar '\n' text.toList).map stripChars
  let chunks := (lines.map (fun line => (splitTwoSpaces line).map stripChars)).flatten
  String.mk (joinWithSpace (chunks.filter (fun c => !c.isEmpty)))

/-- The per-result `fetch_content` closure of `_enhance_search_results`
(lines 73-98): on a 2xx... precisely a 200 status the page text is soup
processed (`soupText` models BeautifulSoup's script/style removal and
`get_text()`), whitespace-normalized, truncated to 5000 characters and
stored; on any other status or a raised exception the result is returned
with its `content` untouched. -/
def fetch_content (fetch : String → FetchOutcome) (soupText : String → String)
    (result : SearchResult) : SearchResult :=
  match fetch result.link with
  | .exn _ => result
  | .http status text =>
      if status = 200 then
        { result with content := some (takeChars (clean_page_text (soupText text)) 5000) }
      else result

/-- `_enhance_search_results` (lines 71-102): `asyncio.gather` runs one
`fetch_content` task per result and returns their values in task order,
i.e. in the positional order of the input list, regardless of completion
order; this is the list map below. -/
def enhance_search_results (fetch : String → FetchOutcome)
    (soupText : String → String) (results : List SearchResult) : List SearchResult :=
  results.map (fetch_content fetch soupText)

/-- A fetch outcome on which `fetch_content` stores no content: a raised
exception or a non-200 status. -/
def fetchFailed : FetchOutcome → Bool
  | .exn _ => true
  | .http s _ => decide (s ≠ 200)

/-! ## Claim C7: per-result fetch failures are non-fatal and enhancement
preserves length and provider-rank order -/

/-- Claim C7.  Enhancement returns a list of the same length; the element
at every position is exactly the enhancement of the input element at that
position (completion order cannot influence it, since the output is
positional); and a failed fetch leaves its result unchanged — in
particular its `content` stays absent and the result is still present. -/
theorem enhance_search_results_shape :
    ∀ (fetch : String → FetchOutcome) (soupText : String → String)
      (results : List SearchResult),
      (enhance_search_results fetch soupText results).length = results.length ∧
      (∀ i : Nat, (enhance_search_results fetch soupText results)[i]?
          = (results[i]?).map (fetch_content fetch soupText)) ∧
      (∀ r : SearchResult, fetchFailed (fetch r.link) = true →
        fetch_content fetch soupText r = r) := by
  intro fetch soupText results
  refine ⟨List.length_map results _, fun i => List.getElem?_map _ _ _, fun r hf => ?_⟩
  unfold fetch_content
  cases hfr : fetch r.link with
  | exn m => rfl
  | http s t =>
      rw [hfr] at hf
      simp only [fetchFailed, decide_eq_true_eq] at hf
      simp [hf]

/-- Concrete always-failing fetch. -/
def fetchTimeout : String → FetchOutcome := fun _ => FetchOutcome.exn "timeout"

/-- Identity soup oracle. -/
def soupId : String → String := fun s => s

/-- A concrete ranked hit without content. -/
def resultC7 : SearchResult :=
  { title := "T", link := "http://a.example", snippet := "s", displayed_link := "a.example" }

theorem enhance_search_results_shape_witness :
    (enhance_search_results fetchTimeout soupId [resultC7]).length = 1 ∧
    (enhance_search_results fetchTimeout soupId [resultC7])[0]?
      = some (fetch_content fetchTimeout soupId resultC7) ∧
    fetch_content fetchTimeout soupId resultC7 = resultC7 :=
  ⟨(enhance_search_results_shape fetchTimeout soupId [resultC7]).1,
   (enhance_search_results_shape fetchTimeout soupId [resultC7]).2.1 0,
   (enhance_search_results_shape fetchTimeout soupId [resultC7]).2.2 resultC7 rfl⟩

/-! ## Claim C8: stored content never exceeds the 5000-character cap -/

theorem takeChars_length (s : String) (n : Nat) :
    (takeChars s n).length = min n s.length := by
  show (s.toList.take n).length = min n s.length
  rw [List.length_take]
  rfl

/-- Claim C8.  Whenever enhancement sets the `content` of a result that
had none, the stored string has length at most 5000; it is exactly the
truncation `text[:5000]` of the cleaned page text, so its length is the
minimum of 5000 and the cleaned text's length — in particular exactly
5000 whenever the cleaned text is at least that long. -/
theorem fetch_content_truncation_bound :
    ∀ (fetch : String → FetchOutcome) (soupText : String → String)
      (r : SearchResult) (c : String),
      r.content = none →
      (fetch_content fetch soupText r).content = some c →
      c.length ≤ 5000 ∧
      (∃ text, fetch r.link = .http 200 text ∧
        c = takeChars (clean_page_text (soupText text)) 5000 ∧
        c.length = min 5000 (clean_page_text (soupText text)).length) := by
  intro fetch soupText r c hc hset
  unfold fetch_content at hset
  cases hfr : fetch r.link with
  | exn m => rw [hfr] at hset; simp [hc] at hset
  | http s t =>
      rw [hfr] at hset
      by_cases hs : s = 200
      · subst hs
        simp at hset
        subst hset
        refine ⟨?_, t, rfl, rfl, takeChars_length _ _⟩
        rw [takeChars_length]
        exact Nat.min_le_left _ _
      · simp [hs, hc] at hset

/-- Concrete 200-status fetch returning a short body. -/
def fetchOk : String → FetchOutcome := fun _ => FetchOutcome.http 200 "hi"

theorem fetch_content_truncation_bound_witness :
    resultC7.content = none ∧
    (fetch_content fetchOk soupId resultC7).content = some "hi" ∧
    "hi".length ≤ 5000 :=
  ⟨rfl, rfl,
    (fetch_content_truncation_bound fetchOk soupId resultC7 "hi" rfl rfl).1⟩

/-! ## `SearchService.search` under its tenacity retry decorator
(`search_service.py` lines 27-69) -/

/-- One raw `organic_results` entry of the SerpAPI response; every field
is read with `result.get(key, "")`. -/
structure RawResult where
  title : Option String := none
  link : Option String := none
  snippet : Option String := none
  displayed_link : Option String := none
deriving DecidableEq, Repr

/-- What one SerpAPI call does: raise in transport (`GoogleSearch` /
network), or return a response dict, with an optional top-level `error`
field and the organic results list. -/
inductive SerpOutcome where
  | transportError (msg : String)
  | response (error_field : Option String) (organic : List RawResult)

/-- One attempt of the `search` body: an `error` field short-circuits by
raising `Exception(f"SerpAPI error: ...")` (logged and re-raised by the
outer handler), a transport failure propagates, and otherwise the first
`max_results` organic results are converted (missing keys defaulting to
`""`) and enhanced. -/
def search_attempt (serp : SerpOutcome) (fetch : String → FetchOutcome)
    (soupText : String → String) (max_results : Nat) :
    Except String (List SearchResult) :=
  match serp with
  | .transportError m => .error m
  | .response (some e) _ => .error ("SerpAPI error: " ++ e)
  | .response none organic =>
      .ok (enhance_search_results fetch soupText
        ((organic.take max_results).map (fun r =>
          { title := r.title.getD "", link := r.link.getD "",
            snippet := r.snippet.getD "", displayed_link := r.displayed_link.getD "",
            content := none })))

/-- Tenacity's `wait_exponential(multiplier=1, min=4, max=10)`: an
exponentially growing wait clamped between the min and the max (for the
first two waits — the only ones `stop_after_attempt(3)` can produce —
both exponent conventions in use by tenacity give 4 seconds). -/
def wait_exponential (multiplier mn mx attemptNumber : Nat) : Nat :=
  max mn (min (multiplier * 2 ^ attemptNumber) mx)

/-- The retry driver of `@retry(stop=stop_after_attempt(3), wait=...)`:
`retriesLeft` further attempts are allowed after the current one; a
failure with none left propagates (tenacity wraps it in `RetryError`; the
embedded error keeps the message).  Returns the result, the number of
attempts performed, and the waits slept between attempts. -/
def tenacityGo {α : Type} (body : Nat → Except String α) :
    Nat → Nat → Except String α × Nat × List Nat
  | 0, i => (body i, i + 1, [])
  | r + 1, i =>
      match body i with
      | .ok a => (.ok a, i + 1, [])
      | .error _ =>
          let w := wait_exponential 1 4 10 (i + 1)
          let rest := tenacityGo body r (i + 1)
          (rest.fst, rest.snd.fst, w :: rest.snd.snd)

/-- `SearchService.search`: the body above retried up to 3 total
attempts, the SerpAPI outcome of attempt `i` given by `env i`. -/
def search (env : Nat → SerpOutcome) (fetch : String → FetchOutcome)
    (soupText : String → String) (max_results : Nat) :
    Except String (List SearchResult) × Nat × List Nat :=
  tenacityGo (fun i => search_attempt (env i) fetch soupText max_results) 2 0

/-! ## Claim C6: search retry policy -/

/-- Claim C6.  A provider `error` field makes the attempt fail with the
`SerpAPI error: ...` exception; a search whose first two attempts fail
and whose third succeeds returns the successful result list after exactly
3 attempts with the two clamped backoff waits; and when every attempt
fails the search fails with the last error after exactly 3 attempts, no
more. -/
theorem search_retry_policy :
    (∀ (fetch : String → FetchOutcome) (soupText : String → String)
       (mr : Nat) (msg : String) (org : List RawResult),
      search_attempt (.response (some msg) org) fetch soupText mr
        = .error ("SerpAPI error: " ++ msg)) ∧
    (∀ (env : Nat → SerpOutcome) (fetch : String → FetchOutcome)
       (soupText : String → String) (mr : Nat) (e0 e1 : String)
       (xs : List SearchResult),
      search_attempt (env 0) fetch soupText mr = .error e0 →
      search_attempt (env 1) fetch soupText mr = .error e1 →
      search_attempt (env 2) fetch soupText mr = .ok xs →
      search env fetch soupText mr = (.ok xs, 3, [4, 4])) ∧
    (∀ (env : Nat → SerpOutcome) (fetch : String → FetchOutcome)
       (soupText : String → String) (mr : Nat) (e0 e1 e2 : String),
      search_attempt (env 0) fetch soupText mr = .error e0 →
      search_attempt (env 1) fetch soupText mr = .error e1 →
      search_attempt (env 2) fetch soupText mr = .error e2 →
      search env fetch soupText mr = (.error e2, 3, [4, 4])) := by
  refine ⟨fun _ _ _ _ _ => rfl, ?_, ?_⟩
  · intro env fetch soupText mr e0 e1 xs h0 h1 h2
    simp [search, tenacityGo, h0, h1, h2, wait_exponential]
  · intro env fetch soupText mr e0 e1 e2 h0 h1 h2
    simp [search, tenacityGo, h0, h1, h2, wait_exponential]

/-- SerpAPI oracle for the C6 witness: two transport failures, then a
successful response with one organic result. -/
def envC6 : Nat → SerpOutcome :=
  fun i => if i < 2 then SerpOutcome.transportError "net down"
           else SerpOutcome.response none [{ title := some "T" }]

/-- The converted, enhancement-unchanged result of the C6 witness. -/
def resultC6 : SearchResult :=
  { title := "T", link := "", snippet := "", displayed_link := "" }

theorem search_retry_policy_witness :
    search envC6 fetchTimeout soupId 5 = (.ok [resultC6], 3, [4, 4]) :=
  search_retry_policy.2.1 envC6 fetchTimeout soupId 5 "net down" "net down"
    [resultC6] rfl rfl rfl

/-! ## The orchestrator (`app/main.py`: `AIAgentUI.process_single_company`
lines 290-323, `AIAgentUI.process_data` lines 325-380) -/

/-- The external outcomes one entity's Search → Extract → Verify chain can
observe: the search result (or the exception `search` re-raises after its
retries), the two model invocations, and the JSON parser. -/
structure EntityEnv where
  searchOutcome : Except String (List SearchResult)
  extractInvoke : RLOutcome
  verifyInvoke : RLOutcome
  jsonLoads : String → Option JsonValue

/-- One output row: either the flattened verified profile merged with
`"Entity": company_name`, or the `{"Entity": ..., "error": ...}` record
built by the per-entity exception handler. -/
inductive Row where
  | profile (entity : String) (info : ExtractedInformation)
  | errorRow (entity : String) (msg : String)

/-- The `Entity` column of a row. -/
def Row.entityOf : Row → String
  | .profile e _ => e
  | .errorRow e _ => e

/-- `process_single_company`: search, extract, verify, flatten; any
exception (in practice only the search can raise — extraction and
verification are total, claims C3/C4) is caught at this level and folded
into an `{Entity, error}` row, so one entity's failure never propagates. -/
def process_single_company (env : EntityEnv) (entity : String) : Row :=
  match env.searchOutcome with
  | .error e => .errorRow entity e
  | .ok results =>
      .profile entity
        (verify_information env.verifyInvoke env.jsonLoads
          (extract_information env.extractInvoke env.jsonLoads results entity))

/-- Observable orchestrator events: the start of a batch, and an
inter-batch sleep. -/
inductive OrchEvent where
  | batchStart
  | interBatchSleep (secs : Nat)
deriving DecidableEq, Repr

/-- Recognizer for sleep events. -/
def isSleep : OrchEvent → Bool
  | .interBatchSleep _ => true
  | _ => false

/-- The batch loop of `process_data` (lines 347-368): slice off
`batch_size` jobs, `asyncio.gather` their chains (results in positional
order), extend the result list, and continue — with no sleep anywhere in
the loop.  Jobs are keyed by row position, so duplicate entity names stay
independent.  The `if df is not None` filter on gathered results never
drops anything because `process_single_company` always returns a frame. -/
def processBatchesGo (envs : Nat → EntityEnv) (batch_size : Nat) :
    List (Nat × String) → List Row × List OrchEvent
  | [] => ([], [])
  | j :: js =>
      let rest := processBatchesGo envs batch_size (js.drop (batch_size - 1))
      ((j :: js.take (batch_size - 1)).map
          (fun p => process_single_company (envs p.1) p.2) ++ rest.fst,
       OrchEvent.batchStart :: rest.snd)
termination_by l => l.length
decreasing_by simp [List.length_drop]; omega

/-- `process_data`: a single-row input is processed synchronously; a
multi-row input runs the batch loop; an empty input reaches
`pd.concat([])`, which raises and is caught by the outer handler, so no
result collection is produced (`none`).  In the application an empty
frame cannot reach this point — `column_selection` rejects empty data. -/
def process_data (envs : Nat → EntityEnv) (entities : List String)
    (batch_size : Nat) : Option (List Row) × List OrchEvent :=
  match entities with
  | [] => (none, [])
  | [e] => (some [process_single_company (envs 0) e], [])
  | e1 :: e2 :: es =>
      let run := processBatchesGo envs batch_size ((e1 :: e2 :: es).enum)
      (some run.fst, run.snd)

/-- `SearchService.batch_search` (lines 104-118): gather each batch of
queries, store results keyed by query, and sleep 2 seconds whenever more
queries remain (`i + batch_size < len(queries)`). -/
def batchSearchGo (searchFor : String → List SearchResult) (batch_size : Nat) :
    List String → List (String × List SearchResult) × List OrchEvent
  | [] => ([], [])
  | q :: qs =>
      let rest := qs.drop (batch_size - 1)
      let restRun := batchSearchGo searchFor batch_size rest
      ((q :: qs.take (batch_size - 1)).map (fun query => (query, searchFor query))
          ++ restRun.fst,
       OrchEvent.batchStart ::
         ((if rest.isEmpty then [] else [OrchEvent.interBatchSleep 2]) ++ restRun.snd))
termination_by l => l.length
decreasing_by simp [List.length_drop]; omega

/-- `batch_search(queries, batch_size)`. -/
def batch_search (searchFor : String → List SearchResult)
    (queries : List String) (batch_size : Nat) :
    List (String × List SearchResult) × List OrchEvent :=
  batchSearchGo searchFor batch_size queries

/-- Number of batches `range(0, len, batch_size)` iterates. -/
def numBatches (len bs : Nat) : Nat := (len + bs - 1) / bs

theorem processBatchesGo_rows (envs : Nat → EntityEnv) (bs : Nat) :
    ∀ (n : Nat) (js : List (Nat × String)), js.length ≤ n →
      (processBatchesGo envs bs js).fst
        = js.map (fun p => process_single_company (envs p.1) p.2) := by
  intro n
  induction n with
  | zero =>
      intro js h
      have hnil : js = [] := List.eq_nil_of_length_eq_zero (by omega)
      subst hnil
      simp [processBatchesGo]
  | succ n ih =>
      intro js h
      cases js with
      | nil => simp [processBatchesGo]
      | cons j js' =>
          simp only [processBatchesGo]
          rw [ih (js'.drop (bs - 1)) (by simp [List.length_drop] at h ⊢; omega)]
          rw [← List.map_append]
          congr 1
          simp [List.take_append_drop]

theorem processBatchesGo_events (envs : Nat → EntityEnv) (bs : Nat) (hbs : 0 < bs) :
    ∀ (n : Nat) (js : List (Nat × String)), js.length ≤ n →
      (processBatchesGo envs bs js).snd
        = List.replicate (numBatches js.length bs) OrchEvent.batchStart := by
  intro n
  induction n with
  | zero =>
      intro js h
      have hnil : js = [] := List.eq_nil_of_length_eq_zero (by omega)
      subst hnil
      simp [processBatchesGo, numBatches]
      exact Nat.div_eq_of_lt (by omega)
  | succ n ih =>
      intro js h
      cases js with
      | nil =>
          simp [processBatchesGo, numBatches]
          exact Nat.div_eq_of_lt (by omega)
      | cons j js' =>
          simp only [processBatchesGo]
          rw [ih (js'.drop (bs - 1)) (by simp [List.length_drop] at h ⊢; omega)]
          simp only [List.length_drop, List.length_cons]
          by_cases hsmall : js'.length ≤ bs - 1
          · have h1 : numBatches (js'.length + 1) bs = 1 := by
              unfold numBatches
              have he : js'.length + 1 + bs - 1 = js'.length + bs := by omega
              rw [he, Nat.add_div_right _ hbs, Nat.div_eq_of_lt (by omega)]
            have h2 : numBatches (js'.length - (bs - 1)) bs = 0 := by
              unfold numBatches
              exact Nat.div_eq_of_lt (by omega)
            rw [h1, h2]
            rfl
          · have h1 : numBatches (js'.length + 1) bs
                = numBatches (js'.length - (bs - 1)) bs + 1 := by
              unfold numBatches
              have he : js'.length + 1 + bs - 1
                  = (js'.length - (bs - 1) + bs - 1) + bs := by omega
              rw [he, Nat.add_div_right _ hbs]
            rw [h1, List.replicate_succ]

theorem entityOf_process_single_company (env : EntityEnv) (entity : String) :
    Row.entityOf (process_single_company env entity) = entity := by
  unfold process_single_company
  cases env.searchOutcome <;> rfl

theorem map_entityOf_enum_rows (envs : Nat → EntityEnv) (l : List String) :
    ((l.enum.map (fun p => process_single_company (envs p.1) p.2)).map Row.entityOf)
      = l := by
  rw [List.map_map]
  have hcomp : (Row.entityOf ∘ fun p : Nat × String =>
      process_single_company (envs p.1) p.2) = Prod.snd :=
    funext fun p => entityOf_process_single_company (envs p.1) p.2
  rw [hcomp]
  exact List.enum_map_snd l

/-! ## Claim C1: one row per input entity, in input order, regardless of
per-entity failures -/

/-- Claim C1.  For every nonempty entity list (duplicates included — jobs
are keyed by row position) and every behaviour of the per-entity
environments, `process_data` produces exactly one row per input entity:
row `i` is precisely the outcome of entity `i`'s own chain (so one
chain's failure yields that entity's `{Entity, error}` row and never
removes it or a sibling's row), and the `Entity` column read in order
equals the input list.  An empty input is rejected upstream
(`column_selection`) and yields no result collection. -/
theorem process_data_one_row_per_entity :
    ∀ (envs : Nat → EntityEnv) (entities : List String) (bs : Nat),
      0 < bs → entities ≠ [] →
      (process_data envs entities bs).fst
        = some (entities.enum.map (fun p => process_single_company (envs p.1) p.2)) ∧
      ((entities.enum.map (fun p => process_single_company (envs p.1) p.2)).map
          Row.entityOf) = entities := by
  intro envs entities bs hbs hne
  refine ⟨?_, map_entityOf_enum_rows envs entities⟩
  cases entities with
  | nil => exact absurd rfl hne
  | cons e1 tail =>
      cases tail with
      | nil => rfl
      | cons e2 es =>
          simp only [process_data]
          rw [processBatchesGo_rows envs bs ((e1 :: e2 :: es).enum).length _ le_rfl]

/-- All-failing concrete environment. -/
def envTriv : EntityEnv :=
  { searchOutcome := .error "offline", extractInvoke := .noResponse,
    verifyInvoke := .noResponse, jsonLoads := fun _ => none }

theorem process_data_one_row_per_entity_witness :
    (process_data (fun _ => envTriv) ["x", "x"] 10).fst
      = some ((["x", "x"].enum).map
          (fun p => process_single_company ((fun _ => envTriv) p.1) p.2)) ∧
    (((["x", "x"].enum).map
        (fun p => process_single_company ((fun _ => envTriv) p.1) p.2)).map
      Row.entityOf) = ["x", "x"] :=
  process_data_one_row_per_entity (fun _ => envTriv) ["x", "x"] 10
    (by omega) (by simp)

/-! ## Claim C9: inter-batch pause -/

/-- Counterexample to C9 as stated: a two-entity input with batch size 1
runs two sequential batches, and the orchestrator's event trace consists
of the two batch starts only — the batch loop of `process_data` contains
no sleep between batches (the 2-second pause exists only in
`SearchService.batch_search`, which `process_data` never calls). -/
theorem process_data_no_inter_batch_pause_cex :
    (process_data (fun _ => envTriv) ["a", "b"] 1).snd
      = [OrchEvent.batchStart, OrchEvent.batchStart] ∧
    (process_data (fun _ => envTriv) ["a", "b"] 1).snd.filter isSleep = [] := by
  have h : (process_data (fun _ => envTriv) ["a", "b"] 1).snd
      = List.replicate (numBatches 2 1) OrchEvent.batchStart := by
    simp only [process_data]
    exact processBatchesGo_events (fun _ => envTriv) 1 (by omega) 2
      (["a", "b"].enum) (by simp)
  rw [h]
  constructor <;> rfl

theorem batchSearchGo_sleeps (searchFor : String → List SearchResult)
    (bs : Nat) (hbs : 0 < bs) :
    ∀ (n : Nat) (qs : List String), qs.length ≤ n →
      (batchSearchGo searchFor bs qs).snd.filter isSleep
        = List.replicate (numBatches qs.length bs - 1)
            (OrchEvent.interBatchSleep 2) := by
  intro n
  induction n with
  | zero =>
      intro qs h
      have hnil : qs = [] := List.eq_nil_of_length_eq_zero (by omega)
      subst hnil
      simp [batchSearchGo, numBatches]
      rw [Nat.div_eq_of_lt (by omega : bs - 1 < bs)]
  | succ n ih =>
      intro qs h
      cases qs with
      | nil =>
          simp [batchSearchGo, numBatches]
          rw [Nat.div_eq_of_lt (by omega : bs - 1 < bs)]
      | cons q qs' =>
          simp only [batchSearchGo, List.filter_cons, List.filter_append]
          rw [ih (qs'.drop (bs - 1)) (by simp [List.length_drop] at h ⊢; omega)]
          simp only [List.length_drop, List.length_cons]
          by_cases hsmall : qs'.length ≤ bs - 1
          · have hempty : (qs'.drop (bs - 1)).isEmpty = true := by
              rw [List.isEmpty_iff]
              exact List.eq_nil_of_length_eq_zero (by simp [List.length_drop]; omega)
            have h1 : numBatches (qs'.length + 1) bs = 1 := by
              unfold numBatches
              have he : qs'.length + 1 + bs - 1 = qs'.length + bs := by omega
              rw [he, Nat.add_div_right _ hbs, Nat.div_eq_of_lt (by omega)]
            have h2 : numBatches (qs'.length - (bs - 1)) bs = 0 := by
              unfold numBatches
              exact Nat.div_eq_of_lt (by omega)
            rw [hempty, h1, h2]
            simp [isSleep]
          · have hempty : (qs'.drop (bs - 1)).isEmpty = false := by
              cases hd : qs'.drop (bs - 1) with
              | nil =>
                  have := congrArg List.length hd
                  simp [List.length_drop] at this
                  omega
              | cons r rs => rfl
            have h1 : numBatches (qs'.length + 1) bs
                = numBatches (qs'.length - (bs - 1)) bs + 1 := by
              unfold numBatches
              have he : qs'.length + 1 + bs - 1
                  = (qs'.length - (bs - 1) + bs - 1) + bs := by omega
              rw [he, Nat.add_div_right _ hbs]
            have h2 : 1 ≤ numBatches (qs'.length - (bs - 1)) bs := by
              unfold numBatches
              rw [Nat.one_le_div_iff hbs]
              omega
            rw [hempty, h1]
            have h3 : numBatches (qs'.length - (bs - 1)) bs + 1 - 1
                = (numBatches (qs'.length - (bs - 1)) bs - 1) + 1 := by omega
            rw [h3, List.replicate_succ]
            simp [isSleep]

/-- Claim C9 as amended.  The orchestrator (`process_data`) processes
batches sequentially but performs no pause at all between consecutive
batches: its event trace contains no sleep for any input.  The 2-second
inter-batch pause described by the spec exists only in
`SearchService.batch_search`: between any two consecutive batches of
`batch_search` exactly one 2-second sleep occurs (one fewer sleep than
batches) — but `process_data` never invokes `batch_search`. -/
theorem process_data_no_pause_batch_search_pauses :
    (∀ (envs : Nat → EntityEnv) (entities : List String) (bs : Nat), 0 < bs →
      (process_data envs entities bs).snd.filter isSleep = []) ∧
    (∀ (searchFor : String → List SearchResult) (queries : List String)
       (bs : Nat), 0 < bs →
      (batch_search searchFor queries bs).snd.filter isSleep
        = List.replicate (numBatches queries.length bs - 1)
            (OrchEvent.interBatchSleep 2)) := by
  constructor
  · intro envs entities bs hbs
    cases entities with
    | nil => rfl
    | cons e1 tail =>
        cases tail with
        | nil => rfl
        | cons e2 es =>
            have h : (process_data envs (e1 :: e2 :: es) bs).snd
                = List.replicate (numBatches ((e1 :: e2 :: es).enum).length bs)
                    OrchEvent.batchStart := by
              simp only [process_data]
              exact processBatchesGo_events envs bs hbs _ _ le_rfl
            rw [h]
            simp [List.filter_replicate, isSleep]
  · intro searchFor queries bs hbs
    exact batchSearchGo_sleeps searchFor bs hbs queries.length queries le_rfl

theorem process_data_no_pause_batch_search_pauses_witness :
    (process_data (fun _ => envTriv) ["a", "b", "c"] 2).snd.filter isSleep = [] ∧
    (batch_search (fun _ => ([] : List SearchResult)) ["a", "b", "c"] 2).snd.filter
        isSleep
      = List.replicate (numBatches (["a", "b", "c"].length) 2 - 1)
          (OrchEvent.interBatchSleep 2) :=
  ⟨process_data_no_pause_batch_search_pauses.1 (fun _ => envTriv)
      ["a", "b", "c"] 2 (by omega),
   process_data_no_pause_batch_search_pauses.2 (fun _ => [])
      ["a", "b", "c"] 2 (by omega)⟩

end BreakoutAI
